import Mathlib

/-!
moistrobot: SMTP session sequencing and MIME message assembly.

A shallow embedding of `mailer.go` (package `moistrobot`): `SMTPConfig.dial`,
`ReaderAttachment.Attach` and `Mailer.Send`, together with the parts of the Go
standard library they drive (`io.Copy`, `encoding/base64`, `mime/multipart`),
followed by theorems about the session trace and the bytes written to the data
stream.

Go strings and byte slices are byte sequences, so both are `List Byte` here.
Everything that the program cannot control (which SMTP command the relay
rejects, how much the data stream accepts, the random multipart boundary, the
iteration order of the header map) is collected in `World`.
-/

namespace Moistrobot

/-! ## Bytes -/

abbrev Byte := Fin 256
abbrev Bytes := List Byte

/-- The bytes of an ASCII string literal of the source. -/
def ascii (s : String) : Bytes := s.toList.map fun c => Fin.ofNat c.toNat

def LF : Byte := 10
def CR : Byte := 13
def CRLF : Bytes := [CR, LF]

/-! ## encoding/base64 (StdEncoding) -/

namespace base64

/-- The standard alphabet, `encodeStd` of encoding/base64. -/
def encodeStd : Bytes :=
  ascii "ABCDEFGHIJKLMNOPQRSTUVWXYZabcdefghijklmnopqrstuvwxyz0123456789+/"

/-- The padding character `StdPadding`, '='. -/
def padChar : Byte := 61

/-- The lookup `enc.encode[i]`. -/
def encodeChar (i : Nat) : Byte := encodeStd.getD i 0

/-- `Encoding.Encode` for StdEncoding: every three source bytes are packed into
`val` and cut into four six-bit indices; a remainder of one or two bytes is
encoded into two or three characters and padded with '='. -/
def Encode : Bytes → Bytes
  | [] => []
  | [a] =>
    let val := a.val <<< 16
    [encodeChar (val >>> 18 &&& 0x3F), encodeChar (val >>> 12 &&& 0x3F), padChar, padChar]
  | [a, b] =>
    let val := a.val <<< 16 ||| b.val <<< 8
    [encodeChar (val >>> 18 &&& 0x3F), encodeChar (val >>> 12 &&& 0x3F),
      encodeChar (val >>> 6 &&& 0x3F), padChar]
  | a :: b :: c :: rest =>
    let val := a.val <<< 16 ||| b.val <<< 8 ||| c.val
    [encodeChar (val >>> 18 &&& 0x3F), encodeChar (val >>> 12 &&& 0x3F),
      encodeChar (val >>> 6 &&& 0x3F), encodeChar (val &&& 0x3F)] ++ Encode rest

/-- The inverse table `enc.decodeMap`: the index of a character of the
alphabet, nothing for any other byte. -/
def decodeMap (c : Byte) : Option Nat :=
  let i := encodeStd.indexOf c
  if i < 64 then some i else none

/-- Standard base64 decoding with padding (RFC 4648, section 4): the input is
read in groups of four characters of the alphabet, each group giving three
bytes; only the last group may end in one or two '=' and then gives one or two
bytes. Any other input is rejected. -/
def Decode : Bytes → Option Bytes
  | [] => some []
  | c0 :: c1 :: c2 :: c3 :: rest =>
    match decodeMap c0, decodeMap c1 with
    | some d0, some d1 =>
      if c2 = padChar then
        if c3 = padChar ∧ rest = [] then
          let val := d0 <<< 18 ||| d1 <<< 12
          some [Fin.ofNat (val >>> 16)]
        else none
      else
        match decodeMap c2 with
        | none => none
        | some d2 =>
          if c3 = padChar then
            if rest = [] then
              let val := d0 <<< 18 ||| d1 <<< 12 ||| d2 <<< 6
              some [Fin.ofNat (val >>> 16), Fin.ofNat (val >>> 8)]
            else none
          else
            match decodeMap c3, Decode rest with
            | some d3, some tail =>
              let val := d0 <<< 18 ||| d1 <<< 12 ||| d2 <<< 6 ||| d3
              some (Fin.ofNat (val >>> 16) :: Fin.ofNat (val >>> 8) :: Fin.ofNat val :: tail)
            | _, _ => none
    | _, _ => none
  | _ => none

end base64

/-! ## io -/

/-- A Go `error` value, identified by its message. -/
abbrev Error := Bytes

/-- An `io.Reader` as its consumer sees it: the non-empty or empty chunks that
successive `Read` calls deliver, followed by io.EOF (`err = none`) or by a read
error. `closer` tells whether the value is also an `io.ReadCloser`. -/
structure Reader where
  chunks : List Bytes
  err : Option Error
  closer : Bool

/-- Everything the reader delivers before it ends or fails. -/
def Reader.bytes (r : Reader) : Bytes := r.chunks.flatten

/-- The data stream returned by `smtpClient.Data()`, seen from the writing side:
`out` is what it has accepted, `room` how many more bytes it accepts before
writes start to fail with `werr` (`none`: it never fails), `failed` whether a
write has failed. The dot-encoding that net/textproto applies on the wire comes
after `out` and is not part of the model. -/
structure Stream where
  out : Bytes
  room : Option Nat
  werr : Error
  failed : Bool

/-- One `Write` on the data stream: the bytes are accepted whole when there is room,
otherwise only the prefix that fits is accepted and the write reports `werr`. -/
def Stream.Write (s : Stream) (p : Bytes) : Stream × Option Error :=
  match s.room with
  | none => ({ s with out := s.out ++ p }, none)
  | some n =>
    if p.length ≤ n then
      ({ s with out := s.out ++ p, room := some (n - p.length) }, none)
    else
      ({ s with out := s.out ++ p.take n, room := some 0, failed := true }, some s.werr)

namespace io

/-- The loop of `io.Copy`: a chunk that was read is written to the destination (an
empty read writes nothing); a failed write stops the copy with the write error;
when the source ends, the result is its read error, nil on io.EOF. -/
def copyLoop {σ : Type} (write : σ → Bytes → σ × Option Error) (srcErr : Option Error) :
    σ → List Bytes → σ × Option Error
  | dst, [] => (dst, srcErr)
  | dst, p :: ps =>
    if 0 < p.length then
      match write dst p with
      | (dst1, some ew) => (dst1, some ew)
      | (dst1, none) => copyLoop write srcErr dst1 ps
    else copyLoop write srcErr dst ps

/-- The function `io.Copy(dst, src)`, with the destination given by its state and
its `Write` method. -/
def Copy {σ : Type} (write : σ → Bytes → σ × Option Error) (dst : σ) (src : Reader) :
    σ × Option Error :=
  copyLoop write src.err dst src.chunks

end io

/-! ## net/textproto and mime/multipart -/

namespace textproto

/-- A `textproto.MIMEHeader`: the values added, each under its key. Every key the
program uses is already in canonical form, so `Add` stores it unchanged. -/
abbrev MIMEHeader := List (Bytes × Bytes)

def MIMEHeader.Add (h : MIMEHeader) (key value : Bytes) : MIMEHeader := h ++ [(key, value)]

/-- The header as `CreatePart` prints it: keys in sorted order, the values of one
key in the order they were added, one `key: value` line each. -/
def MIMEHeader.render (h : MIMEHeader) : Bytes :=
  ((h.insertionSort fun a b => a.1 ≤ b.1).map fun kv =>
    kv.1 ++ ascii ": " ++ kv.2 ++ CRLF).flatten

end textproto

namespace multipart

/-- A hexadecimal digit as `%x` prints it. -/
def hexDigit (n : Nat) : Byte := (ascii "0123456789abcdef").getD n 0

/-- The function `randomBoundary`: thirty random bytes printed with `%x`, two digits
each. -/
def randomBoundary (rand : Fin 30 → Byte) : Bytes :=
  ((List.finRange 30).map fun i =>
    [hexDigit ((rand i).val / 16), hexDigit ((rand i).val % 16)]).flatten

/-- A `multipart.Writer` on the data stream. `lastpart` is `none` before the first
part; afterwards it holds the field `we` of the current part, the error of its
last failed write. -/
structure Writer where
  w : Stream
  boundary : Bytes
  lastpart : Option (Option Error)

def NewWriter (w : Stream) (rand : Fin 30 → Byte) : Writer :=
  { w := w, boundary := randomBoundary rand, lastpart := none }

def Writer.Boundary (mw : Writer) : Bytes := mw.boundary

/-- The method `Writer.CreatePart`: closing the previous part reports the error of its
last failed write; otherwise the delimiter line, the sorted header and an
empty line go to the stream in one write, and the new part becomes the current
one. -/
def Writer.CreatePart (mw : Writer) (header : textproto.MIMEHeader) : Writer × Option Error :=
  match mw.lastpart with
  | some (some we) => (mw, some we)
  | lastpart =>
    let b :=
      (if lastpart.isSome then CRLF ++ ascii "--" ++ mw.boundary ++ CRLF
        else ascii "--" ++ mw.boundary ++ CRLF)
      ++ header.render ++ CRLF
    match mw.w.Write b with
    | (w, some err) => ({ mw with w := w }, some err)
    | (w, none) => ({ mw with w := w, lastpart := some none }, none)

/-- The method `part.Write` for the current part, the only part the program ever
writes to: the bytes go to the stream unchanged and a failure is remembered in
`we`. -/
def Writer.partWrite (mw : Writer) (d : Bytes) : Writer × Option Error :=
  match mw.w.Write d with
  | (w, some err) => ({ mw with w := w, lastpart := some (some err) }, some err)
  | (w, none) => ({ mw with w := w }, none)

/-- The method `Writer.Close`: closes the current part and writes the terminating
boundary line. -/
def Writer.Close (mw : Writer) : Writer × Option Error :=
  match mw.lastpart with
  | some (some we) => (mw, some we)
  | _ =>
    match mw.w.Write (CRLF ++ ascii "--" ++ mw.boundary ++ ascii "--" ++ CRLF) with
    | (w, err) => ({ mw with w := w, lastpart := none }, err)

end multipart

namespace base64

/-- The streaming encoder of `base64.NewEncoder(StdEncoding, part)`: `buf` holds the
zero to two bytes that do not yet fill a group of three, `err` is the sticky
error of a failed write to the part. -/
structure encoder where
  w : multipart.Writer
  buf : Bytes
  err : Option Error

def NewEncoder (w : multipart.Writer) : encoder := { w := w, buf := [], err := none }

/-- The interior and trailing fringe of `encoder.Write`: the complete groups of three
of `p` are encoded and written, the remainder is kept in `buf`. Go writes the
complete groups in pieces of at most 1024 characters; on a stream that accepts
a prefix and then fails this leaves the same bytes as the single write here. -/
def encoder.writeGroups (e : encoder) (p : Bytes) : encoder × Option Error :=
  if 3 ≤ p.length then
    let nn := p.length / 3 * 3
    match e.w.partWrite (Encode (p.take nn)) with
    | (w, some err) => ({ e with w := w, err := some err }, some err)
    | (w, none) => ({ e with w := w, buf := p.drop nn }, none)
  else ({ e with buf := p }, none)

/-- The method `encoder.Write`. -/
def encoder.Write (e : encoder) (p : Bytes) : encoder × Option Error :=
  match e.err with
  | some err => (e, some err)
  | none =>
    if 0 < e.buf.length then
      -- leading fringe: fill the buffered group from p
      let i := min p.length (3 - e.buf.length)
      let buf := e.buf ++ p.take i
      if buf.length < 3 then ({ e with buf := buf }, none)
      else
        match e.w.partWrite (Encode buf) with
        | (w, some err) => ({ e with w := w, buf := buf, err := some err }, some err)
        | (w, none) => encoder.writeGroups { e with w := w, buf := [] } (p.drop i)
    else encoder.writeGroups e p

/-- The method `encoder.Close`: flushes the buffered bytes as a last, padded group. -/
def encoder.Close (e : encoder) : encoder × Option Error :=
  if e.err = none ∧ 0 < e.buf.length then
    match e.w.partWrite (Encode e.buf) with
    | (w, err) => ({ e with w := w, buf := [], err := err }, err)
  else (e, e.err)

end base64

/-! ## net/smtp: the session as a trace of calls -/

/-- The calls the program makes on the SMTP client, on the data stream and on
attachment contents, with their arguments. -/
inductive Call
  | Dial (addr : Bytes)
  | Hello (localName : Bytes)
  | StartTLS (serverName : Bytes)
  | Auth (identity username password host : Bytes)
  | Mail (sender : Bytes)
  | Rcpt (recipient : Bytes)
  | Data
  | DataClose
  | Quit
  | Close
  | ContentClose (filename : Bytes)
  deriving DecidableEq, Repr

/-- The six keys of the header map of `Send`. -/
inductive HeaderKey
  | From | To | Subject | MIMEVersion | ContentType | Precedence
  deriving DecidableEq, Repr

def HeaderKey.all : List HeaderKey :=
  [.From, .To, .Subject, .MIMEVersion, .ContentType, .Precedence]

def HeaderKey.name : HeaderKey → Bytes
  | .From => ascii "From"
  | .To => ascii "To"
  | .Subject => ascii "Subject"
  | .MIMEVersion => ascii "MIME-Version"
  | .ContentType => ascii "Content-Type"
  | .Precedence => ascii "Precedence"

/-- An iteration order of the header map: Go visits every key once, in an order it
does not specify. -/
structure HeaderOrder where
  keys : List HeaderKey
  perm : keys.Perm HeaderKey.all

/-- What the program does not control in one run: the error, if any, with which
each SMTP step fails, the capacity of the data stream, the random bytes of the
multipart boundary and the iteration order of the header map. -/
structure World where
  dial : Option Error
  hello : Option Error
  startTLS : Option Error
  auth : Option Error
  mail : Option Error
  rcpt : Option Error
  data : Option Error
  room : Option Nat
  werr : Error
  rand : Fin 30 → Byte
  order : HeaderOrder

/-- The data stream as `smtpClient.Data()` returns it: nothing written yet. -/
def World.dataStream (world : World) : Stream :=
  { out := [], room := world.room, werr := world.werr, failed := false }

/-! ## mailer.go -/

structure SMTPConfig where
  Server : Bytes
  Hello : Bytes
  Username : Bytes
  Password : Bytes

/-- The method `SMTPConfig.dial`: the calls made on the client and the error returned
(`none` for a nil error, in which case the client is returned). -/
def SMTPConfig.dial (config : SMTPConfig) (world : World) : List Call × Option Error :=
  let t := [Call.Dial config.Server]
  match world.dial with
  | some err => (t, some err)
  | none =>
    let hello := if config.Hello.length < 1 then config.Server else config.Hello
    let t := t ++ [Call.Hello hello]
    match world.hello with
    | some err => (t, some err)
    | none =>
      let t := t ++ [Call.StartTLS config.Hello]
      match world.startTLS with
      | some err => (t, some err)
      | none =>
        let t := t ++ [Call.Auth [] config.Username config.Password config.Hello]
        match world.auth with
        | some err => (t, some (ascii "authenticating: " ++ err))
        | none => (t, none)

structure ReaderAttachment where
  Content : Reader
  ContentType : Bytes
  Filename : Bytes

structure Email where
  To : Bytes
  From : Bytes
  Subject : Bytes
  Body : Reader
  Attachments : List ReaderAttachment

/-- The state the composition of a message acts on: the calls made so far and the
multipart writer on the data stream. -/
structure State where
  trace : List Call
  mw : multipart.Writer

/-- The header of an attachment part, as built at the start of `Attach`. -/
def ReaderAttachment.hdr (attachment : ReaderAttachment) : textproto.MIMEHeader :=
  let hdr : textproto.MIMEHeader := []
  let hdr := hdr.Add (ascii "Content-Type") attachment.ContentType
  let hdr := hdr.Add (ascii "Content-Disposition")
    (ascii "attachment; filename=\"" ++ attachment.Filename ++ ascii "\"")
  hdr.Add (ascii "Content-Transfer-Encoding") (ascii "base64")

/-- The method `ReaderAttachment.Attach`. The results of `io.Copy` and of `enc.Close` are
dropped, as in the source. -/
def ReaderAttachment.Attach (attachment : ReaderAttachment) (s : State) : State × Option Error :=
  match s.mw.CreatePart attachment.hdr with
  | (mw, some err) => ({ s with mw := mw }, some err)
  | (mw, none) =>
    let enc := base64.NewEncoder mw
    let enc := (io.Copy base64.encoder.Write enc attachment.Content).1
    let enc := enc.Close.1
    let trace :=
      if attachment.Content.closer then s.trace ++ [Call.ContentClose attachment.Filename]
      else s.trace
    ({ trace := trace, mw := enc.w }, none)

structure Mailer where
  SMTP : SMTPConfig
  From : Bytes

/-- The loop over `email.Attachments` in `Send`: the first error of an `Attach` is
returned. -/
def Mailer.attachAll : List ReaderAttachment → State → State × Option Error
  | [], s => (s, none)
  | attachment :: rest, s =>
    match attachment.Attach s with
    | (s1, some err) => (s1, some err)
    | (s1, none) => Mailer.attachAll rest s1

/-- The value of the header map of `Send` under a key. -/
def Mailer.headers (sender : Bytes) (email : Email) (boundary : Bytes) : HeaderKey → Bytes
  | .From => sender
  | .To => email.To
  | .Subject => email.Subject
  | .MIMEVersion => ascii "1.0"
  | .ContentType => ascii "multipart/mixed; boundary=\"" ++ boundary ++ ascii "\""
  | .Precedence => ascii "bulk"

/-- The bytes `fmt.Fprintf(writer, "%s: %s\n", key, val)` formats. -/
def Mailer.headerLine (val : HeaderKey → Bytes) (key : HeaderKey) : Bytes :=
  key.name ++ ascii ": " ++ val key ++ [LF]

/-- One `fmt.Fprintf(writer, "%s: %s\n", key, val)`; its result is dropped. -/
def Mailer.writeHeader (val : HeaderKey → Bytes) (w : Stream) (key : HeaderKey) : Stream :=
  (w.Write (Mailer.headerLine val key)).1

/-- The header block of `Send` (lines 161 to 174): one `Fprintf` per key of the header
map, in the iteration order of the run, then the write of a single line feed. -/
def Mailer.writeHeaders (sender : Bytes) (email : Email) (world : World) (boundary : Bytes)
    (writer : Stream) : Stream :=
  let headers := Mailer.headers sender email boundary
  let writer := world.order.keys.foldl (Mailer.writeHeader headers) writer
  (writer.Write [LF]).1

/-- The header of the text part, as built in `Send`. -/
def Mailer.textHeader : textproto.MIMEHeader :=
  let textHeader : textproto.MIMEHeader := []
  textHeader.Add (ascii "Content-Type") (ascii "text/plain")

/-- The part of `Send` from `multipart.NewWriter` to the end (lines 159 to 194): the
header block written straight to the data stream, the text part, the
attachments and the closing of the multipart writer. The results of the header
writes, of `io.Copy` and of `mimeWriter.Close` are dropped, as in the source. -/
def Mailer.compose (sender : Bytes) (email : Email) (world : World) (trace : List Call)
    (writer : Stream) : State × Option Error :=
  let mimeWriter := multipart.NewWriter writer world.rand
  let writer := Mailer.writeHeaders sender email world mimeWriter.Boundary writer
  let mimeWriter := { mimeWriter with w := writer }
  match mimeWriter.CreatePart Mailer.textHeader with
  | (mimeWriter, some err) => ({ trace := trace, mw := mimeWriter }, some err)
  | (mimeWriter, none) =>
    let mimeWriter := (io.Copy multipart.Writer.partWrite mimeWriter email.Body).1
    match Mailer.attachAll email.Attachments { trace := trace, mw := mimeWriter } with
    | (s, some err) => (s, some err)
    | (s, none) => ({ s with mw := s.mw.Close.1 }, none)

/-- The sender of a run (lines 140 to 143): `email.From`, or the `From` of the mailer when
`email.From` is empty. -/
def Mailer.sender (m : Mailer) (email : Email) : Bytes :=
  if email.From.length < 1 then m.From else email.From

/-- The outcome of one `Send`: the error returned (`none` for nil), every call made in
order, and the data stream (`none` when it was never opened). -/
structure Run where
  err : Option Error
  trace : List Call
  stream : Option Stream

/-- The method `Mailer.Send`. A `defer` pushes a call on the front of `deferred`; when
the function returns, the deferred calls run from the front, that is, the last
one deferred runs first. -/
def Mailer.Send (m : Mailer) (email : Email) (world : World) : Run :=
  match m.SMTP.dial world with
  | (t, some err) => { err := some err, trace := t, stream := none }
  | (t, none) =>
    let deferred : List Call := []
    let deferred := Call.Quit :: deferred
    let deferred := Call.Close :: deferred
    let sender := m.sender email
    let t := t ++ [Call.Mail sender]
    match world.mail with
    | some err => { err := some err, trace := t ++ deferred, stream := none }
    | none =>
      let t := t ++ [Call.Rcpt email.To]
      match world.rcpt with
      | some err => { err := some err, trace := t ++ deferred, stream := none }
      | none =>
        let t := t ++ [Call.Data]
        match world.data with
        | some err => { err := some err, trace := t ++ deferred, stream := none }
        | none =>
          let writer := world.dataStream
          let deferred := Call.DataClose :: deferred
          match Mailer.compose sender email world t writer with
          | (s, err) => { err := err, trace := s.trace ++ deferred, stream := some s.mw.w }

/-! ## The wire format, as the specification describes it -/

namespace multipart

/-- A body part of a multipart message: its header fields and its content. -/
structure Part where
  header : textproto.MIMEHeader
  body : Bytes

/-- A body part on the wire (RFC 2046, 5.1.1): the delimiter line `--boundary`, the
header fields, an empty line, the content, and the line break that belongs to
the delimiter that follows. -/
def Part.render (boundary : Bytes) (p : Part) : Bytes :=
  ascii "--" ++ boundary ++ CRLF ++ p.header.render ++ CRLF ++ p.body ++ CRLF

/-- A multipart body on the wire: its parts in order, then the closing delimiter
`--boundary--`. -/
def render (boundary : Bytes) (parts : List Part) : Bytes :=
  (parts.map (Part.render boundary)).flatten ++ (ascii "--" ++ boundary ++ ascii "--" ++ CRLF)

end multipart

/-- The pieces of a byte sequence between its line feeds: `k` line feeds give `k + 1`
pieces, the last one being what follows the last line feed. -/
def splitLF : Bytes → List Bytes
  | [] => [[]]
  | b :: rest =>
    if b = LF then [] :: splitLF rest
    else
      match splitLF rest with
      | [] => [[b]]
      | l :: ls => (b :: l) :: ls

/-- The six header lines the specification requires, without their line ends. -/
def Mailer.requiredHeaders (sender : Bytes) (email : Email) (boundary : Bytes) : List Bytes :=
  [ascii "From: " ++ sender, ascii "To: " ++ email.To, ascii "Subject: " ++ email.Subject,
    ascii "MIME-Version: 1.0",
    ascii "Content-Type: multipart/mixed; boundary=\"" ++ boundary ++ ascii "\"",
    ascii "Precedence: bulk"]

/-- The header block `hb`, read line by line, is exactly the six required header lines
in some order followed by exactly one blank line: cut at its line feeds, its
first six pieces are a permutation of the required lines and what remains is
the empty piece of the blank line and the empty piece after the last line
feed. -/
def Mailer.HeaderBlockWellFormed (hb sender : Bytes) (email : Email) (boundary : Bytes) : Prop :=
  ((splitLF hb).take 6).Perm (Mailer.requiredHeaders sender email boundary) ∧
    (splitLF hb).drop 6 = [[], []]

instance (hb sender : Bytes) (email : Email) (boundary : Bytes) :
    Decidable (Mailer.HeaderBlockWellFormed hb sender email boundary) := by
  unfold Mailer.HeaderBlockWellFormed
  infer_instance

/-- The header block of a run: what lines 161 to 174 of `Send` write to the fresh data
stream. -/
def Mailer.headerBlockOf (m : Mailer) (email : Email) (world : World) : Bytes :=
  (Mailer.writeHeaders (m.sender email) email world (multipart.randomBoundary world.rand)
    world.dataStream).out

/-- The parts of the message of an email: the text part with the body, then one part
for each attachment with its content in base64. -/
def Mailer.parts (email : Email) : List multipart.Part :=
  { header := [(ascii "Content-Type", ascii "text/plain")], body := email.Body.bytes } ::
    email.Attachments.map fun a =>
      { header := a.hdr, body := base64.Encode a.Content.bytes }

/-! ## Concrete inputs -/

namespace Example

/-- A relay that accepts every step, a data stream that never fails, the header map
visited in the order of the source, and all random bytes zero. -/
def world : World :=
  { dial := none, hello := none, startTLS := none, auth := none, mail := none, rcpt := none,
    data := none, room := none, werr := ascii "broken pipe", rand := fun _ => 0,
    order := ⟨HeaderKey.all, List.Perm.refl _⟩ }

def config : SMTPConfig :=
  { Server := ascii "mail.example.com", Hello := [], Username := ascii "u",
    Password := ascii "p" }

def mailer : Mailer := { SMTP := config, From := ascii "robot@example.com" }

/-- A mailer whose server address names a port and whose greeting name is set. -/
def relayMailer : Mailer :=
  { SMTP := { Server := ascii "mail.example.com:587", Hello := ascii "mail.example.com",
              Username := ascii "u", Password := ascii "p" },
    From := ascii "robot@example.com" }

def email : Email :=
  { To := ascii "a@b.com", From := [], Subject := ascii "hi",
    Body := { chunks := [ascii "hello world"], err := none, closer := false },
    Attachments := [] }

/-- An attachment of seven bytes that its reader delivers in two reads. -/
def attachment : ReaderAttachment :=
  { Content := { chunks := [ascii "abcd", ascii "efg"], err := none, closer := true },
    ContentType := ascii "text/plain", Filename := ascii "x.txt" }

/-- An attachment whose reader delivers four bytes and then fails. -/
def brokenAttachment : ReaderAttachment :=
  { Content := { chunks := [ascii "abcd"], err := some (ascii "unexpected EOF"), closer := true },
    ContentType := ascii "text/plain", Filename := ascii "x.txt" }

def emailWithAttachment : Email := { email with Attachments := [attachment] }

def emailWithBrokenAttachment : Email := { email with Attachments := [brokenAttachment] }

/-- An email whose subject holds a line feed. -/
def emailTwoLineSubject : Email := { email with Subject := ascii "hi\nBcc: c@d.com" }

/-- The state in which `Send` calls `Attach` for the first attachment of an email with an
empty body on the example relay. -/
def stateBeforeAttach : State :=
  { trace := [],
    mw := { w := world.dataStream, boundary := multipart.randomBoundary world.rand,
            lastpart := some none } }

/-- The same relay, rejecting the greeting. -/
def worldHelloFails : World := { world with hello := some (ascii "421 service not available") }

/-- The same relay, rejecting the credentials. -/
def worldAuthFails : World := { world with auth := some (ascii "535 bad credentials") }

end Example

/-! ## Reading a trace -/

/-- The greetings sent in a trace. -/
def greetings : List Call → List Bytes
  | [] => []
  | Call.Hello name :: t => name :: greetings t
  | _ :: t => greetings t

/-- The senders declared in a trace. -/
def senders : List Call → List Bytes
  | [] => []
  | Call.Mail sender :: t => sender :: senders t
  | _ :: t => senders t

/-! ## Vocabulary of the proofs -/

namespace multipart

/-- The current part, if any, has no write error. -/
def Writer.NoPartError (mw : Writer) : Prop := ∀ we, mw.lastpart ≠ some (some we)

end multipart

namespace multipart

/-- The delimiter line `CreatePart` writes before a part. -/
def Writer.delimiter (mw : Writer) : Bytes :=
  if mw.lastpart.isSome then CRLF ++ ascii "--" ++ mw.boundary ++ CRLF
  else ascii "--" ++ mw.boundary ++ CRLF

end multipart

/-- The header block a run writes when no write fails. -/
def Mailer.headerBlock (sender : Bytes) (email : Email) (world : World) : Bytes :=
  (world.order.keys.map
    (Mailer.headerLine (Mailer.headers sender email (multipart.randomBoundary world.rand)))).flatten
    ++ [LF]

namespace base64

/-- The encoder `e1` is what `e` becomes by consuming `input` without any failed write:
the complete groups of three of the bytes consumed are on the stream, encoded,
and the remainder is buffered. -/
def encoder.Fed (e e1 : encoder) (input : Bytes) : Prop :=
  e1.err = none ∧ e1.buf.length < 3 ∧ e1.w.boundary = e.w.boundary ∧
    e1.w.lastpart = e.w.lastpart ∧
    ∃ done : Bytes, done.length % 3 = 0 ∧ e.buf ++ input = done ++ e1.buf ∧
      e1.w.w.out = e.w.w.out ++ Encode done

end base64

/-- The calls `Attach` adds to the trace: the close of a closable content. -/
def ReaderAttachment.closeCalls (attachment : ReaderAttachment) : List Call :=
  if attachment.Content.closer then [Call.ContentClose attachment.Filename] else []

/-- What the loop over the attachments writes when no write fails: for each attachment
the delimiter, its header, an empty line and its content in base64. -/
def Mailer.attachmentBytes (boundary : Bytes) (attachments : List ReaderAttachment) : Bytes :=
  (attachments.map fun a =>
    CRLF ++ ascii "--" ++ boundary ++ CRLF ++ a.hdr.render ++ CRLF
      ++ base64.Encode a.Content.bytes).flatten

/-- What `compose` writes after the header block when no write fails. -/
def Mailer.bodyBytes (email : Email) (boundary : Bytes) : Bytes :=
  ascii "--" ++ boundary ++ CRLF ++ Mailer.textHeader.render ++ CRLF ++ email.Body.bytes
    ++ Mailer.attachmentBytes boundary email.Attachments
    ++ (CRLF ++ ascii "--" ++ boundary ++ ascii "--" ++ CRLF)

/-- A header line of `Send` without its line end. -/
def Mailer.headerField (val : HeaderKey → Bytes) (key : HeaderKey) : Bytes :=
  key.name ++ ascii ": " ++ val key

/-! # Theorems -/

namespace base64

/-! ### Round trip of the codec -/

theorem decodeMap_encodeChar_fin : ∀ i : Fin 64, decodeMap (encodeChar i.val) = some i.val := by
  decide

theorem encodeChar_ne_pad_fin : ∀ i : Fin 64, encodeChar i.val ≠ padChar := by
  decide

theorem decodeMap_encodeChar {i : Nat} (h : i < 64) : decodeMap (encodeChar i) = some i :=
  decodeMap_encodeChar_fin ⟨i, h⟩

theorem encodeChar_ne_pad {i : Nat} (h : i < 64) : encodeChar i ≠ padChar :=
  encodeChar_ne_pad_fin ⟨i, h⟩

theorem shl_or {y k : Nat} (x : Nat) (h : y < 2 ^ k) : x <<< k ||| y = x * 2 ^ k + y := by
  rw [Nat.shiftLeft_eq, Nat.mul_comm, ← Nat.mul_add_lt_is_or h]

theorem and_3F (x : Nat) : x &&& 0x3F = x % 64 :=
  Nat.and_pow_two_sub_one_eq_mod x 6

theorem pack3 (a b c : Byte) :
    a.val <<< 16 ||| b.val <<< 8 ||| c.val = a.val * 65536 + b.val * 256 + c.val := by
  have ha := a.isLt
  have hb := b.isLt
  have hc := c.isLt
  have h1 : a.val <<< 16 ||| b.val <<< 8 = (a.val * 256 + b.val) <<< 8 := by
    rw [shl_or (k := 16) a.val (by rw [Nat.shiftLeft_eq]; omega), Nat.shiftLeft_eq,
      Nat.shiftLeft_eq]
    omega
  rw [h1, shl_or _ (by omega)]
  omega

theorem pack2 (a b : Byte) : a.val <<< 16 ||| b.val <<< 8 = a.val * 65536 + b.val * 256 := by
  have := pack3 a b 0
  simpa using this

theorem unpack4 (d0 : Nat) {d1 d2 d3 : Nat} (h1 : d1 < 64) (h2 : d2 < 64) (h3 : d3 < 64) :
    d0 <<< 18 ||| d1 <<< 12 ||| d2 <<< 6 ||| d3
      = d0 * 262144 + d1 * 4096 + d2 * 64 + d3 := by
  have e1 : d0 <<< 18 ||| d1 <<< 12 = (d0 * 64 + d1) <<< 12 := by
    rw [shl_or (k := 18) d0 (by rw [Nat.shiftLeft_eq]; omega), Nat.shiftLeft_eq,
      Nat.shiftLeft_eq]
    omega
  have e2 : (d0 * 64 + d1) <<< 12 ||| d2 <<< 6 = ((d0 * 64 + d1) * 64 + d2) <<< 6 := by
    rw [shl_or (k := 12) _ (by rw [Nat.shiftLeft_eq]; omega), Nat.shiftLeft_eq,
      Nat.shiftLeft_eq]
    omega
  rw [e1, e2, shl_or _ (by omega)]
  omega

theorem unpack3 (d0 : Nat) {d1 d2 : Nat} (h1 : d1 < 64) (h2 : d2 < 64) :
    d0 <<< 18 ||| d1 <<< 12 ||| d2 <<< 6 = d0 * 262144 + d1 * 4096 + d2 * 64 := by
  have := unpack4 d0 h1 h2 (show 0 < 64 by omega)
  simpa using this

theorem unpack2 (d0 : Nat) {d1 : Nat} (h1 : d1 < 64) :
    d0 <<< 18 ||| d1 <<< 12 = d0 * 262144 + d1 * 4096 := by
  have := unpack3 d0 h1 (show 0 < 64 by omega)
  simpa using this

theorem byte_ofNat {n : Nat} (b : Byte) (h : n % 256 = b.val) : (Fin.ofNat n : Byte) = b :=
  Fin.ext h

theorem sextet_lt (x : Nat) : x % 64 < 64 := Nat.mod_lt x (by omega)

/-- Decoding the encoding of a byte sequence gives the sequence back. -/
theorem Decode_Encode (bs : Bytes) : Decode (Encode bs) = some bs := by
  induction bs using Encode.induct with
  | case1 => rfl
  | case2 a =>
    have ha := a.isLt
    simp only [Encode, Decode, and_3F]
    rw [decodeMap_encodeChar (sextet_lt _), decodeMap_encodeChar (sextet_lt _)]
    simp only [and_self, if_true]
    rw [unpack2 _ (sextet_lt _)]
    simp only [Nat.shiftRight_eq_div_pow, Nat.shiftLeft_eq]
    congr 2
    exact byte_ofNat a (by omega)
  | case3 a b =>
    have ha := a.isLt
    have hb := b.isLt
    simp only [Encode, Decode, and_3F, pack2]
    rw [decodeMap_encodeChar (sextet_lt _), decodeMap_encodeChar (sextet_lt _),
      decodeMap_encodeChar (sextet_lt _)]
    simp only [encodeChar_ne_pad (sextet_lt _), if_false, if_true]
    rw [unpack3 _ (sextet_lt _) (sextet_lt _)]
    simp only [Nat.shiftRight_eq_div_pow]
    congr 2
    · exact byte_ofNat a (by omega)
    · congr 1
      exact byte_ofNat b (by omega)
  | case4 a b c rest ih =>
    have ha := a.isLt
    have hb := b.isLt
    have hc := c.isLt
    simp only [Encode, List.cons_append, List.nil_append, Decode, and_3F, pack3, List.append_eq]
    rw [decodeMap_encodeChar (sextet_lt _), decodeMap_encodeChar (sextet_lt _),
      decodeMap_encodeChar (sextet_lt _), decodeMap_encodeChar (sextet_lt _), ih]
    simp only [encodeChar_ne_pad (sextet_lt _), if_false]
    rw [unpack4 _ (sextet_lt _) (sextet_lt _) (sextet_lt _)]
    simp only [Nat.shiftRight_eq_div_pow]
    congr 2
    · exact byte_ofNat a (by omega)
    · congr 1
      · exact byte_ofNat b (by omega)
      · congr 1
        exact byte_ofNat c (by omega)

end base64

/-! ## The session -/

theorem dial_ok_iff (config : SMTPConfig) (world : World) :
    (config.dial world).2 = none ↔
      world.dial = none ∧ world.hello = none ∧ world.startTLS = none ∧ world.auth = none := by
  unfold SMTPConfig.dial
  cases world.dial <;> cases world.hello <;> cases world.startTLS <;> cases world.auth <;> simp

theorem dial_trace_ok (config : SMTPConfig) (world : World) (h : (config.dial world).2 = none) :
    (config.dial world).1 =
      [Call.Dial config.Server,
        Call.Hello (if config.Hello.length < 1 then config.Server else config.Hello),
        Call.StartTLS config.Hello,
        Call.Auth [] config.Username config.Password config.Hello] := by
  obtain ⟨h1, h2, h3, h4⟩ := (dial_ok_iff config world).1 h
  simp [SMTPConfig.dial, h1, h2, h3, h4]

/-- C10. Whenever the connection is opened, dial sends exactly one greeting; it is
config.Hello when config.Hello is not empty and config.Server when it is. -/
theorem dial_greeting (config : SMTPConfig) (world : World) (hdial : world.dial = none) :
    (config.Hello ≠ [] → greetings (config.dial world).1 = [config.Hello]) ∧
    (config.Hello = [] → greetings (config.dial world).1 = [config.Server]) := by
  have key : greetings (config.dial world).1 =
      [if config.Hello.length < 1 then config.Server else config.Hello] := by
    unfold SMTPConfig.dial
    cases world.hello <;> cases world.startTLS <;> cases world.auth <;>
      simp [hdial, greetings]
  constructor
  · intro hne
    have : ¬ config.Hello.length < 1 := by
      cases hc : config.Hello with
      | nil => exact absurd hc hne
      | cons a l => simp
    rw [key, if_neg this]
  · intro he
    rw [key, he]
    rfl

theorem dial_greeting_witness :
    Example.world.dial = none ∧
      greetings (Example.config.dial Example.world).1 = [ascii "mail.example.com"] :=
  ⟨rfl, (dial_greeting Example.config Example.world rfl).2 rfl⟩

/-- C3. When the relay accepts the connection, the greeting and the TLS upgrade and then
rejects the authentication with an error e, Send returns the error whose message
is "authenticating: " followed by the message of e, and its trace contains no
MAIL, no RCPT and no DATA call. -/
theorem Send_auth_rejected (m : Mailer) (email : Email) (world : World) (e : Error)
    (hdial : world.dial = none) (hhello : world.hello = none)
    (htls : world.startTLS = none) (hauth : world.auth = some e) :
    (m.Send email world).err = some (ascii "authenticating: " ++ e) ∧
    ∀ c ∈ (m.Send email world).trace,
      (∀ sender, c ≠ Call.Mail sender) ∧ (∀ recipient, c ≠ Call.Rcpt recipient) ∧
        c ≠ Call.Data := by
  have hd : m.SMTP.dial world =
      ([Call.Dial m.SMTP.Server,
        Call.Hello (if m.SMTP.Hello.length < 1 then m.SMTP.Server else m.SMTP.Hello),
        Call.StartTLS m.SMTP.Hello,
        Call.Auth [] m.SMTP.Username m.SMTP.Password m.SMTP.Hello],
        some (ascii "authenticating: " ++ e)) := by
    simp [SMTPConfig.dial, hdial, hhello, htls, hauth]
  have hs : m.Send email world =
      { err := some (ascii "authenticating: " ++ e), trace := (m.SMTP.dial world).1,
        stream := none } := by
    simp only [Mailer.Send, hd]
  rw [hs, hd]
  refine ⟨rfl, ?_⟩
  intro c hc
  simp only [List.mem_cons, List.mem_singleton, List.not_mem_nil, or_false] at hc
  rcases hc with rfl | rfl | rfl | rfl <;> simp

theorem Send_auth_rejected_witness :
    (Example.mailer.Send Example.email Example.worldAuthFails).err
      = some (ascii "authenticating: " ++ ascii "535 bad credentials") ∧
    ∀ c ∈ (Example.mailer.Send Example.email Example.worldAuthFails).trace,
      (∀ sender, c ≠ Call.Mail sender) ∧ (∀ recipient, c ≠ Call.Rcpt recipient) ∧
        c ≠ Call.Data :=
  Send_auth_rejected Example.mailer Example.email Example.worldAuthFails
    (ascii "535 bad credentials") rfl rfl rfl rfl

/-- C2. With an empty config.Hello the greeting is config.Server, while the server name
of the TLS upgrade and the host of the PLAIN authentication are both the empty
config.Hello. -/
theorem dial_empty_Hello_trace :
    (Example.config.dial Example.world).1 =
      [Call.Dial (ascii "mail.example.com"), Call.Hello (ascii "mail.example.com"),
        Call.StartTLS [], Call.Auth [] (ascii "u") (ascii "p") []] := by
  decide

/-- C4. When the connection is opened and the relay rejects the greeting, Send returns the
error after the calls Dial and Hello only: the connection that was opened is
neither closed nor quit. -/
theorem Send_greeting_rejected_trace :
    Example.worldHelloFails.dial = none ∧
    (Example.mailer.Send Example.email Example.worldHelloFails).err
      = some (ascii "421 service not available") ∧
    (Example.mailer.Send Example.email Example.worldHelloFails).trace =
      [Call.Dial (ascii "mail.example.com"), Call.Hello (ascii "mail.example.com")] ∧
    Call.Close ∉ (Example.mailer.Send Example.email Example.worldHelloFails).trace ∧
    Call.Quit ∉ (Example.mailer.Send Example.email Example.worldHelloFails).trace := by
  decide

/-- C5. In a run that opens the data stream and composes the message, the last three
calls are the close of the data stream, then Close on the connection, then
Quit: Close comes before Quit. -/
theorem Send_cleanup_trace :
    (Example.mailer.Send Example.email Example.world).trace =
      [Call.Dial (ascii "mail.example.com"), Call.Hello (ascii "mail.example.com"),
        Call.StartTLS [], Call.Auth [] (ascii "u") (ascii "p") [],
        Call.Mail (ascii "robot@example.com"), Call.Rcpt (ascii "a@b.com"), Call.Data,
        Call.DataClose, Call.Close, Call.Quit] := by
  decide

/-! ## The data stream -/

theorem Stream.Write_ok (s : Stream) (p : Bytes) (h : (s.Write p).1.failed = false) :
    s.failed = false ∧ (s.Write p).2 = none ∧ (s.Write p).1.out = s.out ++ p := by
  unfold Stream.Write at h ⊢
  cases hr : s.room with
  | none =>
    simp only [hr] at h ⊢
    simpa using h
  | some n =>
    simp only [hr] at h ⊢
    by_cases hle : p.length ≤ n
    · simp only [hle, if_true] at h ⊢
      simpa using h
    · simp [hle] at h

namespace multipart

theorem Writer.partWrite_ok (mw : Writer) (d : Bytes)
    (h : (mw.partWrite d).1.w.failed = false) :
    mw.w.failed = false ∧ (mw.partWrite d).2 = none ∧
      (mw.partWrite d).1.w.out = mw.w.out ++ d ∧
      (mw.partWrite d).1.boundary = mw.boundary ∧
      (mw.partWrite d).1.lastpart = mw.lastpart := by
  unfold Writer.partWrite at h ⊢
  rcases hw : mw.w.Write d with ⟨w, e⟩
  have hok := Stream.Write_ok mw.w d
  rw [hw] at hok h
  cases e with
  | none => simpa using hok h
  | some err =>
    have := hok h
    simp at this

theorem Writer.CreatePart_ok (mw : Writer) (header : textproto.MIMEHeader)
    (h : (mw.CreatePart header).1.w.failed = false) :
    mw.w.failed = false ∧ (mw.NoPartError →
      (mw.CreatePart header).2 = none ∧
      (mw.CreatePart header).1.w.out = mw.w.out ++ (mw.delimiter ++ header.render ++ CRLF) ∧
      (mw.CreatePart header).1.boundary = mw.boundary ∧
      (mw.CreatePart header).1.lastpart = some none) := by
  unfold Writer.CreatePart at h ⊢
  have hok := Stream.Write_ok mw.w (mw.delimiter ++ header.render ++ CRLF)
  unfold Writer.delimiter at hok ⊢
  rcases hl : mw.lastpart with _ | _ | we
  · simp only [hl, Option.isSome_none, Bool.false_eq_true, if_false] at h hok ⊢
    rcases hw : mw.w.Write (ascii "--" ++ mw.boundary ++ CRLF ++ header.render ++ CRLF)
      with ⟨w, e⟩
    rw [hw] at hok h
    cases e with
    | none =>
      have := hok h
      simp only at this ⊢
      exact ⟨this.1, fun _ => by simpa using this.2.2⟩
    | some err =>
      have := hok h
      simp at this
  · simp only [hl, Option.isSome_some, if_true] at h hok ⊢
    rcases hw : mw.w.Write (CRLF ++ ascii "--" ++ mw.boundary ++ CRLF ++ header.render ++ CRLF)
      with ⟨w, e⟩
    rw [hw] at hok h
    cases e with
    | none =>
      have := hok h
      simp only at this ⊢
      exact ⟨this.1, fun _ => by simpa using this.2.2⟩
    | some err =>
      have := hok h
      simp at this
  · simp only [hl] at h ⊢
    exact ⟨h, fun hn => absurd hl (hn we)⟩

theorem Writer.Close_ok (mw : Writer) (h : mw.Close.1.w.failed = false) :
    mw.w.failed = false ∧ (mw.NoPartError →
      mw.Close.1.w.out
        = mw.w.out ++ (CRLF ++ ascii "--" ++ mw.boundary ++ ascii "--" ++ CRLF)) := by
  unfold Writer.Close at h ⊢
  have hok := Stream.Write_ok mw.w (CRLF ++ ascii "--" ++ mw.boundary ++ ascii "--" ++ CRLF)
  rcases hl : mw.lastpart with _ | _ | we
  · simp only [hl] at h ⊢
    exact ⟨(hok h).1, fun _ => (hok h).2.2⟩
  · simp only [hl] at h ⊢
    exact ⟨(hok h).1, fun _ => (hok h).2.2⟩
  · simp only [hl] at h ⊢
    exact ⟨h, fun hn => absurd hl (hn we)⟩

end multipart

/-! ## Copying the body -/

theorem copyLoop_partWrite_ok (srcErr : Option Error) (chunks : List Bytes)
    (mw : multipart.Writer)
    (h : (io.copyLoop multipart.Writer.partWrite srcErr mw chunks).1.w.failed = false) :
    mw.w.failed = false ∧
      (io.copyLoop multipart.Writer.partWrite srcErr mw chunks).1.w.out
        = mw.w.out ++ chunks.flatten ∧
      (io.copyLoop multipart.Writer.partWrite srcErr mw chunks).1.boundary = mw.boundary ∧
      (io.copyLoop multipart.Writer.partWrite srcErr mw chunks).1.lastpart = mw.lastpart := by
  induction chunks generalizing mw with
  | nil => simpa [io.copyLoop] using h
  | cons p ps ih =>
    unfold io.copyLoop at h ⊢
    by_cases hp : 0 < p.length
    · simp only [hp, if_true] at h ⊢
      have hok := multipart.Writer.partWrite_ok mw p
      rcases hw : mw.partWrite p with ⟨mw1, e⟩
      rw [hw] at hok h
      cases e with
      | some err =>
        have := hok h
        simp at this
      | none =>
        simp only at h hok ⊢
        obtain ⟨h1, h2, h3, h4⟩ := ih mw1 h
        obtain ⟨g1, _, g3, g4, g5⟩ := hok h1
        refine ⟨g1, ?_, ?_, ?_⟩
        · rw [h2, g3, List.flatten_cons, List.append_assoc]
        · rw [h3, g4]
        · rw [h4, g5]
    · simp only [hp, if_false] at h ⊢
      have hnil : p = [] := by
        cases p with
        | nil => rfl
        | cons a l => simp at hp
      subst hnil
      simpa using ih mw h

/-! ## The header block -/

theorem Mailer.foldl_writeHeader_ok (val : HeaderKey → Bytes) (keys : List HeaderKey)
    (w : Stream) (h : (keys.foldl (Mailer.writeHeader val) w).failed = false) :
    w.failed = false ∧
      (keys.foldl (Mailer.writeHeader val) w).out
        = w.out ++ (keys.map (Mailer.headerLine val)).flatten := by
  induction keys generalizing w with
  | nil => simpa using h
  | cons k ks ih =>
    simp only [List.foldl_cons] at h ⊢
    obtain ⟨h1, h2⟩ := ih _ h
    obtain ⟨g1, _, g3⟩ := Stream.Write_ok w (Mailer.headerLine val k) h1
    refine ⟨g1, ?_⟩
    rw [h2]
    simp only [Mailer.writeHeader, g3, List.map_cons, List.flatten_cons, List.append_assoc]

theorem Mailer.writeHeaders_ok (sender : Bytes) (email : Email) (world : World) (w : Stream)
    (h : (Mailer.writeHeaders sender email world
      (multipart.randomBoundary world.rand) w).failed = false) :
    w.failed = false ∧
      (Mailer.writeHeaders sender email world (multipart.randomBoundary world.rand) w).out
        = w.out ++ Mailer.headerBlock sender email world := by
  unfold Mailer.writeHeaders at h ⊢
  obtain ⟨h1, _, h3⟩ := Stream.Write_ok _ _ h
  obtain ⟨g1, g2⟩ := Mailer.foldl_writeHeader_ok _ _ _ h1
  refine ⟨g1, ?_⟩
  simp only at h3 g2 ⊢
  rw [h3, g2, Mailer.headerBlock, List.append_assoc]

/-! ## The streaming encoder -/

namespace base64

theorem Encode_append (xs ys : Bytes) (h : xs.length % 3 = 0) :
    Encode (xs ++ ys) = Encode xs ++ Encode ys := by
  induction xs using Encode.induct with
  | case1 => simp [Encode]
  | case2 a => simp at h
  | case3 a b => simp at h
  | case4 a b c rest ih =>
    have hr : rest.length % 3 = 0 := by
      simp only [List.length_cons] at h
      omega
    simp only [List.cons_append, Encode, List.append_eq, ih hr, List.nil_append,
      List.append_assoc]

theorem encoder.Fed.nil (e : encoder) (he : e.err = none) (hb : e.buf.length < 3) :
    encoder.Fed e e [] :=
  ⟨he, hb, rfl, rfl, [], rfl, by simp, by simp [Encode]⟩

theorem encoder.Fed.trans {e e1 e2 : encoder} {a b : Bytes} (h1 : encoder.Fed e e1 a)
    (h2 : encoder.Fed e1 e2 b) : encoder.Fed e e2 (a ++ b) := by
  obtain ⟨_, _, hb1, hl1, d1, hd1, hs1, ho1⟩ := h1
  obtain ⟨he2, hbuf2, hb2, hl2, d2, hd2, hs2, ho2⟩ := h2
  refine ⟨he2, hbuf2, hb2.trans hb1, hl2.trans hl1, d1 ++ d2, ?_, ?_, ?_⟩
  · rw [List.length_append]
    omega
  · rw [← List.append_assoc, hs1, List.append_assoc, hs2, List.append_assoc]
  · rw [ho2, ho1, Encode_append d1 d2 hd1, List.append_assoc]

theorem encoder.writeGroups_ok (e : encoder) (p : Bytes)
    (h : (e.writeGroups p).1.w.w.failed = false) :
    e.w.w.failed = false ∧ (e.err = none →
      (e.writeGroups p).2 = none ∧ encoder.Fed { e with buf := [] } (e.writeGroups p).1 p) := by
  unfold encoder.writeGroups at h ⊢
  by_cases h3 : 3 ≤ p.length
  · simp only [h3, if_true] at h ⊢
    have hok := multipart.Writer.partWrite_ok e.w (Encode (p.take (p.length / 3 * 3)))
    rcases hw : e.w.partWrite (Encode (p.take (p.length / 3 * 3))) with ⟨w, er⟩
    rw [hw] at hok h
    cases er with
    | some err =>
      have := hok h
      simp at this
    | none =>
      simp only at h hok ⊢
      obtain ⟨g1, _, g3, g4, g5⟩ := hok h
      refine ⟨g1, fun he =>
        ⟨trivial, he, ?_, g4, g5, p.take (p.length / 3 * 3), ?_, ?_, g3⟩⟩
      · simp only [List.length_drop]
        omega
      · simp only [List.length_take]
        omega
      · simp
  · simp only [h3, if_false] at h ⊢
    exact ⟨h, fun he =>
      ⟨trivial, he, by simp only; omega, rfl, rfl, [], rfl, by simp, by simp [Encode]⟩⟩

theorem encoder.Write_fed (e : encoder) (p : Bytes) (h : (e.Write p).1.w.w.failed = false) :
    e.w.w.failed = false ∧ (e.err = none → e.buf.length < 3 →
      (e.Write p).2 = none ∧ encoder.Fed e (e.Write p).1 p) := by
  unfold encoder.Write at h ⊢
  cases he : e.err with
  | some err =>
    simp only [he] at h ⊢
    exact ⟨h, fun hn => by simp at hn⟩
  | none =>
    simp only [he] at h ⊢
    by_cases hb : 0 < e.buf.length
    · simp only [hb, if_true] at h ⊢
      by_cases hlt : (e.buf ++ p.take (min p.length (3 - e.buf.length))).length < 3
      · simp only [hlt, if_true] at h ⊢
        refine ⟨h, fun _ hbuf =>
          ⟨trivial, rfl, hlt, rfl, rfl, [], rfl, ?_, by simp [Encode]⟩⟩
        have hall : p.take (min p.length (3 - e.buf.length)) = p := by
          apply List.take_of_length_le
          simp only [List.length_append, List.length_take] at hlt
          omega
        simp [hall]
      · simp only [hlt, if_false] at h ⊢
        have hok := multipart.Writer.partWrite_ok e.w
          (Encode (e.buf ++ p.take (min p.length (3 - e.buf.length))))
        rcases hw : e.w.partWrite (Encode (e.buf ++ p.take (min p.length (3 - e.buf.length))))
          with ⟨w, er⟩
        rw [hw] at hok h
        cases er with
        | some err =>
          have := hok h
          simp at this
        | none =>
          simp only at h hok ⊢
          obtain ⟨k1, k2⟩ := encoder.writeGroups_ok _ _ h
          obtain ⟨g1, _, g3, g4, g5⟩ := hok k1
          refine ⟨g1, fun _ hbuf => ?_⟩
          obtain ⟨f0, f1, f2, f3, f4, d, fd, fs, fo⟩ := k2 rfl
          simp only [List.nil_append] at fs f3 f4 fo
          refine ⟨f0, f1, f2, f3.trans g4, f4.trans g5,
            (e.buf ++ p.take (min p.length (3 - e.buf.length))) ++ d, ?_, ?_, ?_⟩
          · simp only [List.length_append, List.length_take] at hlt ⊢
            omega
          · rw [List.append_assoc, List.append_assoc, ← fs, List.take_append_drop]
          · have hlen : (e.buf ++ p.take (min p.length (3 - e.buf.length))).length % 3 = 0 := by
              simp only [List.length_append, List.length_take] at hlt ⊢
              omega
            rw [fo, g3, Encode_append _ _ hlen, List.append_assoc]
    · simp only [hb, if_false] at h ⊢
      obtain ⟨k1, k2⟩ := encoder.writeGroups_ok e p h
      refine ⟨k1, fun _ _ => ?_⟩
      have hnil : e.buf = [] := by
        cases hbuf : e.buf with
        | nil => rfl
        | cons a l => simp [hbuf] at hb
      obtain ⟨f0, f1, f2, f3, f4, d, fd, fs, fo⟩ := k2 he
      exact ⟨f0, f1, f2, f3, f4, d, fd, by simpa [hnil] using fs, fo⟩

theorem copyLoop_encoder_ok (srcErr : Option Error) (chunks : List Bytes) (e : encoder)
    (h : (io.copyLoop encoder.Write srcErr e chunks).1.w.w.failed = false) :
    e.w.w.failed = false ∧ (e.err = none → e.buf.length < 3 →
      encoder.Fed e (io.copyLoop encoder.Write srcErr e chunks).1 chunks.flatten) := by
  induction chunks generalizing e with
  | nil =>
    simp only [io.copyLoop] at h ⊢
    exact ⟨h, fun he hb => encoder.Fed.nil e he hb⟩
  | cons p ps ih =>
    unfold io.copyLoop at h ⊢
    by_cases hp : 0 < p.length
    · simp only [hp, if_true] at h ⊢
      have hok := encoder.Write_fed e p
      rcases hw : e.Write p with ⟨e1, er⟩
      rw [hw] at hok h
      cases er with
      | some err =>
        simp only at h hok ⊢
        obtain ⟨g1, g2⟩ := hok h
        refine ⟨g1, fun he hb => ?_⟩
        have := (g2 he hb).1
        simp at this
      | none =>
        simp only at h hok ⊢
        obtain ⟨h1, h2⟩ := ih e1 h
        obtain ⟨g1, g2⟩ := hok h1
        refine ⟨g1, fun he hb => ?_⟩
        have f1 := (g2 he hb).2
        have f2 := h2 f1.1 f1.2.1
        simpa using encoder.Fed.trans f1 f2
    · simp only [hp, if_false] at h ⊢
      have hnil : p = [] := by
        cases p with
        | nil => rfl
        | cons a l => simp at hp
      subst hnil
      simpa using ih e h

theorem encoder.Close_flushed (e : encoder) (h : e.Close.1.w.w.failed = false) :
    e.w.w.failed = false ∧ (e.err = none →
      e.Close.1.w.w.out = e.w.w.out ++ Encode e.buf ∧
      e.Close.1.w.boundary = e.w.boundary ∧ e.Close.1.w.lastpart = e.w.lastpart) := by
  unfold encoder.Close at h ⊢
  by_cases hc : e.err = none ∧ 0 < e.buf.length
  · simp only [hc, and_self, if_true] at h ⊢
    have hok := multipart.Writer.partWrite_ok e.w (Encode e.buf)
    rcases hw : e.w.partWrite (Encode e.buf) with ⟨w, er⟩
    rw [hw] at hok h
    simp only at h hok ⊢
    obtain ⟨g1, _, g3, g4, g5⟩ := hok h
    exact ⟨g1, fun _ => ⟨g3, g4, g5⟩⟩
  · rw [if_neg hc] at h ⊢
    refine ⟨h, fun he => ⟨?_, rfl, rfl⟩⟩
    have hnil : e.buf = [] := by
      cases hbuf : e.buf with
      | nil => rfl
      | cons a l => exact absurd ⟨he, by simp [hbuf]⟩ hc
    simp [hnil, Encode]

end base64

/-! ## Attachments -/

theorem ReaderAttachment.Attach_ok (attachment : ReaderAttachment) (s : State)
    (h : (attachment.Attach s).1.mw.w.failed = false) :
    s.mw.w.failed = false ∧ (s.mw.NoPartError →
      (attachment.Attach s).2 = none ∧
      (attachment.Attach s).1.mw.w.out = s.mw.w.out ++
        (s.mw.delimiter ++ attachment.hdr.render ++ CRLF
          ++ base64.Encode attachment.Content.bytes) ∧
      (attachment.Attach s).1.mw.boundary = s.mw.boundary ∧
      (attachment.Attach s).1.mw.lastpart = some none ∧
      (attachment.Attach s).1.trace = s.trace ++ attachment.closeCalls) := by
  unfold ReaderAttachment.Attach at h ⊢
  have hok := multipart.Writer.CreatePart_ok s.mw attachment.hdr
  rcases hc : s.mw.CreatePart attachment.hdr with ⟨mw, er⟩
  rw [hc] at hok h
  cases er with
  | some err =>
    simp only at h hok ⊢
    obtain ⟨g1, g2⟩ := hok h
    refine ⟨g1, fun hn => ?_⟩
    have := (g2 hn).1
    simp at this
  | none =>
    simp only [io.Copy] at h hok ⊢
    obtain ⟨c1, c2⟩ := base64.encoder.Close_flushed _ h
    obtain ⟨l1, l2⟩ := base64.copyLoop_encoder_ok _ _ _ c1
    obtain ⟨g1, g2⟩ := hok l1
    refine ⟨g1, fun hn => ?_⟩
    obtain ⟨_, o1, o2, o3⟩ := g2 hn
    obtain ⟨f1, f2, f3, f4, d, fd, fs, fo⟩ := l2 rfl (by simp [base64.NewEncoder])
    obtain ⟨k1, k2, k3⟩ := c2 f1
    simp only [base64.NewEncoder, List.nil_append] at f3 f4 fs fo k1 k2 k3 ⊢
    refine ⟨trivial, ?_, ?_, ?_, ?_⟩
    · rw [k1, fo, o1, Reader.bytes, fs, base64.Encode_append d _ fd]
      simp only [List.append_assoc]
    · rw [k2, f3, o2]
    · rw [k3, f4, o3]
    · unfold ReaderAttachment.closeCalls
      split <;> simp

theorem Mailer.attachAll_ok (attachments : List ReaderAttachment) (s : State)
    (h : (Mailer.attachAll attachments s).1.mw.w.failed = false) :
    s.mw.w.failed = false ∧ (s.mw.lastpart = some none →
      (Mailer.attachAll attachments s).2 = none ∧
      (Mailer.attachAll attachments s).1.mw.w.out
        = s.mw.w.out ++ Mailer.attachmentBytes s.mw.boundary attachments ∧
      (Mailer.attachAll attachments s).1.mw.boundary = s.mw.boundary ∧
      (Mailer.attachAll attachments s).1.mw.lastpart = some none ∧
      (Mailer.attachAll attachments s).1.trace
        = s.trace ++ (attachments.map ReaderAttachment.closeCalls).flatten) := by
  induction attachments generalizing s with
  | nil =>
    simp only [Mailer.attachAll] at h ⊢
    exact ⟨h, fun hl => ⟨trivial, by simp [Mailer.attachmentBytes], trivial, hl, by simp⟩⟩
  | cons a rest ih =>
    unfold Mailer.attachAll at h ⊢
    have hok := ReaderAttachment.Attach_ok a s
    rcases ha : a.Attach s with ⟨s1, er⟩
    rw [ha] at hok h
    cases er with
    | some err =>
      simp only at h hok ⊢
      obtain ⟨g1, g2⟩ := hok h
      refine ⟨g1, fun hl => ?_⟩
      have := (g2 (fun we => by rw [hl]; simp)).1
      simp at this
    | none =>
      simp only at h hok ⊢
      obtain ⟨h1, h2⟩ := ih s1 h
      obtain ⟨g1, g2⟩ := hok h1
      refine ⟨g1, fun hl => ?_⟩
      obtain ⟨_, o1, o2, o3, o4⟩ := g2 (fun we => by rw [hl]; simp)
      obtain ⟨r1, r2, r3, r4, r5⟩ := h2 o3
      refine ⟨r1, ?_, r3.trans o2, r4, ?_⟩
      · rw [r2, o1, o2]
        simp only [Mailer.attachmentBytes, multipart.Writer.delimiter, hl, Option.isSome_some,
          if_true, List.map_cons, List.flatten_cons, List.append_assoc]
      · rw [r5, o4]
        simp only [List.map_cons, List.flatten_cons, List.append_assoc]

/-! ## The composed message -/

theorem Mailer.compose_ok (sender : Bytes) (email : Email) (world : World) (trace : List Call)
    (writer : Stream)
    (h : (Mailer.compose sender email world trace writer).1.mw.w.failed = false) :
    (Mailer.writeHeaders sender email world (multipart.randomBoundary world.rand)
        writer).failed = false ∧
      (Mailer.compose sender email world trace writer).2 = none ∧
      (Mailer.compose sender email world trace writer).1.mw.w.out
        = writer.out ++ Mailer.headerBlock sender email world
          ++ Mailer.bodyBytes email (multipart.randomBoundary world.rand) ∧
      (Mailer.compose sender email world trace writer).1.trace
        = trace ++ (email.Attachments.map ReaderAttachment.closeCalls).flatten := by
  unfold Mailer.compose at h ⊢
  simp only [multipart.NewWriter, multipart.Writer.Boundary] at h ⊢
  have hok := multipart.Writer.CreatePart_ok
    { w := Mailer.writeHeaders sender email world (multipart.randomBoundary world.rand) writer,
      boundary := multipart.randomBoundary world.rand, lastpart := none } Mailer.textHeader
  rcases hc : multipart.Writer.CreatePart
    { w := Mailer.writeHeaders sender email world (multipart.randomBoundary world.rand) writer,
      boundary := multipart.randomBoundary world.rand, lastpart := none } Mailer.textHeader
    with ⟨mw, er⟩
  rw [hc] at hok h
  have hn : multipart.Writer.NoPartError
      { w := Mailer.writeHeaders sender email world (multipart.randomBoundary world.rand) writer,
        boundary := multipart.randomBoundary world.rand, lastpart := none } := by
    intro we
    simp
  cases er with
  | some err =>
    simp only at h hok ⊢
    have := ((hok h).2 hn).1
    simp at this
  | none =>
    simp only [io.Copy] at h hok ⊢
    have hall := Mailer.attachAll_ok email.Attachments
      { trace := trace,
        mw := (io.copyLoop multipart.Writer.partWrite email.Body.err mw email.Body.chunks).1 }
    rcases ha : Mailer.attachAll email.Attachments
      { trace := trace,
        mw := (io.copyLoop multipart.Writer.partWrite email.Body.err mw email.Body.chunks).1 }
      with ⟨s1, er1⟩
    rw [ha] at hall h
    cases er1 with
    | some err =>
      simp only at h hall ⊢
      obtain ⟨a1, a2⟩ := hall h
      obtain ⟨b1, b2, b3, b4⟩ := copyLoop_partWrite_ok _ _ _ a1
      obtain ⟨c1, c2⟩ := hok b1
      obtain ⟨_, _, _, c6⟩ := c2 hn
      have := (a2 (b4.trans c6)).1
      simp at this
    | none =>
      simp only at h hall ⊢
      obtain ⟨z1, z2⟩ := multipart.Writer.Close_ok s1.mw h
      obtain ⟨a1, a2⟩ := hall z1
      obtain ⟨b1, b2, b3, b4⟩ := copyLoop_partWrite_ok _ _ _ a1
      obtain ⟨c1, c2⟩ := hok b1
      obtain ⟨_, c4, c5, c6⟩ := c2 hn
      obtain ⟨d1, d2⟩ := Mailer.writeHeaders_ok sender email world writer c1
      obtain ⟨_, e2, e3, e4, e5⟩ := a2 (b4.trans c6)
      refine ⟨c1, trivial, ?_, e5⟩
      rw [z2 (fun we => by rw [e4]; simp), e2, e3, b2, b3, c4, c5, d2]
      simp only [Mailer.bodyBytes, multipart.Writer.delimiter, Option.isSome_none,
        Bool.false_eq_true, if_false, Reader.bytes, List.append_assoc]

theorem Mailer.bodyBytes_eq_render (email : Email) (boundary : Bytes) :
    Mailer.bodyBytes email boundary = multipart.render boundary (Mailer.parts email) := by
  have key : ∀ l : List ReaderAttachment,
      Mailer.attachmentBytes boundary l ++ CRLF
        = CRLF ++ ((l.map fun a => ({ header := a.hdr, body := base64.Encode a.Content.bytes }
            : multipart.Part)).map (multipart.Part.render boundary)).flatten := by
    intro l
    induction l with
    | nil => simp [Mailer.attachmentBytes]
    | cons a rest ih =>
      have step : Mailer.attachmentBytes boundary (a :: rest)
          = (CRLF ++ ascii "--" ++ boundary ++ CRLF ++ a.hdr.render ++ CRLF
              ++ base64.Encode a.Content.bytes) ++ Mailer.attachmentBytes boundary rest := by
        simp [Mailer.attachmentBytes]
      rw [step, List.append_assoc, ih]
      simp only [List.map_cons, List.flatten_cons, multipart.Part.render, List.append_assoc]
  have hk := key email.Attachments
  unfold Mailer.bodyBytes multipart.render Mailer.parts
  simp only [List.map_cons, List.flatten_cons, multipart.Part.render, List.append_assoc]
  have h2 : Mailer.attachmentBytes boundary email.Attachments
        ++ (CRLF ++ (ascii "--" ++ (boundary ++ (ascii "--" ++ CRLF))))
      = (Mailer.attachmentBytes boundary email.Attachments ++ CRLF)
        ++ (ascii "--" ++ (boundary ++ (ascii "--" ++ CRLF))) := by
    simp only [List.append_assoc]
  rw [h2, hk]
  simp only [List.append_assoc, Mailer.textHeader, textproto.MIMEHeader.Add, List.nil_append]

/-! ## What a run of `Send` leaves on the data stream -/

theorem Mailer.Send_stream (m : Mailer) (email : Email) (world : World) (st : Stream)
    (hs : (m.Send email world).stream = some st) :
    (m.SMTP.dial world).2 = none ∧ world.mail = none ∧ world.rcpt = none ∧
      world.data = none ∧
      m.Send email world =
        { err := (Mailer.compose (m.sender email) email world
            ((m.SMTP.dial world).1 ++ [Call.Mail (m.sender email)] ++ [Call.Rcpt email.To]
              ++ [Call.Data]) world.dataStream).2,
          trace := (Mailer.compose (m.sender email) email world
            ((m.SMTP.dial world).1 ++ [Call.Mail (m.sender email)] ++ [Call.Rcpt email.To]
              ++ [Call.Data]) world.dataStream).1.trace
            ++ [Call.DataClose, Call.Close, Call.Quit],
          stream := some (Mailer.compose (m.sender email) email world
            ((m.SMTP.dial world).1 ++ [Call.Mail (m.sender email)] ++ [Call.Rcpt email.To]
              ++ [Call.Data]) world.dataStream).1.mw.w } := by
  unfold Mailer.Send at hs ⊢
  rcases hd : m.SMTP.dial world with ⟨t, er⟩
  rw [hd] at hs
  cases er with
  | some err => simp at hs
  | none =>
    simp only at hs ⊢
    cases hm : world.mail with
    | some err => simp [hm] at hs
    | none =>
      cases hr : world.rcpt with
      | some err => simp [hm, hr] at hs
      | none =>
        cases hda : world.data with
        | some err => simp [hm, hr, hda] at hs
        | none => simp

theorem Mailer.Send_out (m : Mailer) (email : Email) (world : World) (st : Stream)
    (hs : (m.Send email world).stream = some st) (hf : st.failed = false) :
    st.out = Mailer.headerBlockOf m email world
        ++ multipart.render (multipart.randomBoundary world.rand) (Mailer.parts email) ∧
      Mailer.headerBlockOf m email world = Mailer.headerBlock (m.sender email) email world := by
  obtain ⟨_, _, _, _, he⟩ := Mailer.Send_stream m email world st hs
  rw [he] at hs
  simp only [Option.some.injEq] at hs
  subst hs
  obtain ⟨hw, _, c3, _⟩ := Mailer.compose_ok _ _ _ _ _ hf
  obtain ⟨_, w2⟩ := Mailer.writeHeaders_ok _ _ _ _ hw
  have hb : Mailer.headerBlockOf m email world
      = Mailer.headerBlock (m.sender email) email world := by
    rw [Mailer.headerBlockOf, w2]
    simp [World.dataStream]
  refine ⟨?_, hb⟩
  rw [c3, hb, Mailer.bodyBytes_eq_render]
  simp [World.dataStream]

/-- C6. In a run that opens the data stream and in which no write fails, what is on the
stream is the header block followed by a multipart body of exactly
1 + len(attachments) parts: the first has the single header field Content-Type:
text/plain and the bytes of the body as content, and the part after it at
position i has the header of the i-th attachment and the base64 encoding of the
bytes of its content as content. -/
theorem Send_multipart_parts (m : Mailer) (email : Email) (world : World)
    (h : (m.Send email world).stream.map Stream.failed = some false) :
    ∃ parts : List multipart.Part,
      (m.Send email world).stream.map Stream.out
        = some (Mailer.headerBlockOf m email world
            ++ multipart.render (multipart.randomBoundary world.rand) parts) ∧
      parts.length = 1 + email.Attachments.length ∧
      parts.head? = some { header := [(ascii "Content-Type", ascii "text/plain")],
                           body := email.Body.bytes } ∧
      ∀ (i : Nat) (hi : i < email.Attachments.length),
        parts[i + 1]? = some
          { header := (email.Attachments.get ⟨i, hi⟩).hdr,
            body := base64.Encode (email.Attachments.get ⟨i, hi⟩).Content.bytes } := by
  cases hs : (m.Send email world).stream with
  | none => simp [hs] at h
  | some st =>
    have hf : st.failed = false := by simpa [hs] using h
    refine ⟨Mailer.parts email, ?_, ?_, ?_, ?_⟩
    · simp only [Option.map_some', (Mailer.Send_out m email world st hs hf).1]
    · simp [Mailer.parts, Nat.add_comm]
    · simp [Mailer.parts]
    · intro i hi
      simp [Mailer.parts, hi]

theorem Send_multipart_parts_witness :
    ∃ parts : List multipart.Part,
      (Example.mailer.Send Example.emailWithAttachment Example.world).stream.map Stream.out
        = some (Mailer.headerBlockOf Example.mailer Example.emailWithAttachment Example.world
            ++ multipart.render (multipart.randomBoundary Example.world.rand) parts) ∧
      parts.length = 1 + 1 ∧
      parts.head? = some { header := [(ascii "Content-Type", ascii "text/plain")],
                           body := ascii "hello world" } ∧
      ∀ (i : Nat) (hi : i < Example.emailWithAttachment.Attachments.length),
        parts[i + 1]? = some
          { header := (Example.emailWithAttachment.Attachments.get ⟨i, hi⟩).hdr,
            body := base64.Encode
              (Example.emailWithAttachment.Attachments.get ⟨i, hi⟩).Content.bytes } :=
  Send_multipart_parts Example.mailer Example.emailWithAttachment Example.world (by decide)

/-- C7. When `Attach` returns nil and no write has failed, what it has added to the stream
is the delimiter, the header of the part, an empty line and a body whose
standard base64 decoding is exactly the byte sequence the content delivered,
whatever its length and however the reads cut it. -/
theorem Attach_roundtrip (attachment : ReaderAttachment) (s : State)
    (hret : (attachment.Attach s).2 = none)
    (hf : (attachment.Attach s).1.mw.w.failed = false) :
    ∃ body : Bytes,
      (attachment.Attach s).1.mw.w.out
        = s.mw.w.out ++ (s.mw.delimiter ++ attachment.hdr.render ++ CRLF) ++ body ∧
      base64.Decode body = some attachment.Content.bytes := by
  have hn : s.mw.NoPartError := by
    intro we hl
    simp [ReaderAttachment.Attach, multipart.Writer.CreatePart, hl] at hret
  obtain ⟨_, g⟩ := ReaderAttachment.Attach_ok attachment s hf
  obtain ⟨_, o, _⟩ := g hn
  refine ⟨base64.Encode attachment.Content.bytes, ?_, base64.Decode_Encode _⟩
  rw [o]
  simp only [List.append_assoc]

theorem Attach_roundtrip_witness :
    ∃ body : Bytes,
      (Example.attachment.Attach Example.stateBeforeAttach).1.mw.w.out
        = Example.stateBeforeAttach.mw.w.out
          ++ (Example.stateBeforeAttach.mw.delimiter ++ Example.attachment.hdr.render ++ CRLF)
          ++ body ∧
      base64.Decode body = some (ascii "abcdefg") :=
  Attach_roundtrip Example.attachment Example.stateBeforeAttach (by decide) (by decide)

/-- C1. An attachment whose reader fails after four bytes, on a relay that accepts every
step and a stream on which no write fails: `Send` returns nil. -/
theorem Send_broken_attachment_nil :
    Example.brokenAttachment.Content.err = some (ascii "unexpected EOF") ∧
    (Example.mailer.Send Example.emailWithBrokenAttachment Example.world).stream.map
      Stream.failed = some false ∧
    (Example.mailer.Send Example.emailWithBrokenAttachment Example.world).err = none := by
  decide

/-! ## The header block, line by line -/

theorem splitLF_line (l rest : Bytes) (h : LF ∉ l) :
    splitLF (l ++ LF :: rest) = l :: splitLF rest := by
  induction l with
  | nil => simp [splitLF]
  | cons b l ih =>
    have hb : b ≠ LF := fun e => h (by simp [e])
    have hl : LF ∉ l := fun e => h (by simp [e])
    simp only [List.cons_append, splitLF, hb, if_false, List.append_eq, ih hl]

theorem splitLF_lines (ls : List Bytes) (h : ∀ l ∈ ls, LF ∉ l) :
    splitLF ((ls.map fun l => l ++ [LF]).flatten ++ [LF]) = ls ++ [[], []] := by
  induction ls with
  | nil => simp [splitLF]
  | cons l ls ih =>
    have hl : LF ∉ l := h l (by simp)
    have hls : ∀ x ∈ ls, LF ∉ x := fun x hx => h x (by simp [hx])
    simp only [List.map_cons, List.flatten_cons, List.append_assoc, List.singleton_append,
      List.cons_append]
    rw [splitLF_line l _ hl]
    simpa using ih hls

theorem hexDigit_ne_LF (n : Nat) : multipart.hexDigit n ≠ LF := by
  by_cases h : n < 16
  · have key : ∀ i : Fin 16, multipart.hexDigit i.val ≠ LF := by decide
    exact key ⟨n, h⟩
  · have hlen : (ascii "0123456789abcdef").length ≤ n := by
      have : (ascii "0123456789abcdef").length = 16 := by decide
      omega
    simp only [multipart.hexDigit, List.getD_eq_getElem?_getD,
      List.getElem?_eq_none hlen, Option.getD_none]
    decide

theorem randomBoundary_no_LF (rand : Fin 30 → Byte) : LF ∉ multipart.randomBoundary rand := by
  intro h
  simp only [multipart.randomBoundary, List.mem_flatten, List.mem_map] at h
  obtain ⟨l, ⟨i, _, rfl⟩, hl⟩ := h
  simp only [List.mem_cons, List.mem_singleton, List.not_mem_nil, or_false] at hl
  rcases hl with e | e
  · exact hexDigit_ne_LF _ e.symm
  · exact hexDigit_ne_LF _ e.symm

theorem Mailer.headerField_no_LF (sender : Bytes) (email : Email) (rand : Fin 30 → Byte)
    (h1 : LF ∉ sender) (h2 : LF ∉ email.To) (h3 : LF ∉ email.Subject) (key : HeaderKey) :
    LF ∉ Mailer.headerField
      (Mailer.headers sender email (multipart.randomBoundary rand)) key := by
  have hb := randomBoundary_no_LF rand
  have n1 : LF ∉ ascii "From" ++ ascii ": " := by decide
  have n2 : LF ∉ ascii "To" ++ ascii ": " := by decide
  have n3 : LF ∉ ascii "Subject" ++ ascii ": " := by decide
  have n4 : LF ∉ ascii "MIME-Version" ++ ascii ": " ++ ascii "1.0" := by decide
  have n5 : LF ∉ ascii "Content-Type" ++ ascii ": " ++ ascii "multipart/mixed; boundary=\"" := by
    decide
  have n6 : LF ∉ ascii "\"" := by decide
  have n7 : LF ∉ ascii "Precedence" ++ ascii ": " ++ ascii "bulk" := by decide
  cases key <;>
    simp only [Mailer.headerField, Mailer.headers, HeaderKey.name, List.mem_append, not_or] at * <;>
    tauto

theorem Mailer.requiredHeaders_eq (sender : Bytes) (email : Email) (boundary : Bytes) :
    HeaderKey.all.map (Mailer.headerField (Mailer.headers sender email boundary))
      = Mailer.requiredHeaders sender email boundary := by
  have e1 : ascii "From" ++ ascii ": " = ascii "From: " := by decide
  have e2 : ascii "To" ++ ascii ": " = ascii "To: " := by decide
  have e3 : ascii "Subject" ++ ascii ": " = ascii "Subject: " := by decide
  have e4 : ascii "MIME-Version" ++ ascii ": " ++ ascii "1.0" = ascii "MIME-Version: 1.0" := by
    decide
  have e5 : ascii "Content-Type" ++ ascii ": " ++ ascii "multipart/mixed; boundary=\""
      = ascii "Content-Type: multipart/mixed; boundary=\"" := by decide
  have e6 : ascii "Precedence" ++ ascii ": " ++ ascii "bulk" = ascii "Precedence: bulk" := by
    decide
  simp only [HeaderKey.all, List.map_cons, List.map_nil, Mailer.headerField, Mailer.headers,
    HeaderKey.name, Mailer.requiredHeaders, e1, e2, e3, e4, e6]
  rw [← e5]
  simp only [List.append_assoc]

theorem Mailer.headerBlock_wellFormed (sender : Bytes) (email : Email) (world : World)
    (h1 : LF ∉ sender) (h2 : LF ∉ email.To) (h3 : LF ∉ email.Subject) :
    Mailer.HeaderBlockWellFormed (Mailer.headerBlock sender email world) sender email
      (multipart.randomBoundary world.rand) := by
  have hlen : (world.order.keys.map (Mailer.headerField
      (Mailer.headers sender email (multipart.randomBoundary world.rand)))).length = 6 := by
    rw [List.length_map, world.order.perm.length_eq]
    rfl
  have hsplit : splitLF (Mailer.headerBlock sender email world)
      = world.order.keys.map (Mailer.headerField
          (Mailer.headers sender email (multipart.randomBoundary world.rand))) ++ [[], []] := by
    have hmap : world.order.keys.map
        (Mailer.headerLine (Mailer.headers sender email (multipart.randomBoundary world.rand)))
        = (world.order.keys.map (Mailer.headerField
            (Mailer.headers sender email (multipart.randomBoundary world.rand)))).map
            fun l => l ++ [LF] := by
      simp [Mailer.headerLine, Mailer.headerField, Function.comp_def]
    rw [Mailer.headerBlock, hmap]
    apply splitLF_lines
    intro l hl
    obtain ⟨k, _, rfl⟩ := List.mem_map.1 hl
    exact Mailer.headerField_no_LF sender email world.rand h1 h2 h3 k
  unfold Mailer.HeaderBlockWellFormed
  rw [hsplit, ← hlen, List.take_left, List.drop_left]
  refine ⟨?_, rfl⟩
  rw [← Mailer.requiredHeaders_eq]
  exact world.order.perm.map _

/-- C8, as amended. In a run that opens the data stream and in which no write fails, if
the sender of the run, email.To and email.Subject hold no line feed, then the
header block read line by line is exactly the six required header lines in some
order followed by exactly one blank line, and the stream is that header block
followed by a multipart body whose delimiters and closing marker use the
boundary named in the Content-Type line. -/
theorem Send_header_block (m : Mailer) (email : Email) (world : World)
    (h : (m.Send email world).stream.map Stream.failed = some false)
    (h1 : LF ∉ m.sender email) (h2 : LF ∉ email.To) (h3 : LF ∉ email.Subject) :
    Mailer.HeaderBlockWellFormed (Mailer.headerBlockOf m email world) (m.sender email) email
      (multipart.randomBoundary world.rand) ∧
    ∃ (p : multipart.Part) (ps : List multipart.Part),
      (m.Send email world).stream.map Stream.out
        = some (Mailer.headerBlockOf m email world
            ++ multipart.render (multipart.randomBoundary world.rand) (p :: ps)) := by
  cases hs : (m.Send email world).stream with
  | none => simp [hs] at h
  | some st =>
    have hf : st.failed = false := by simpa [hs] using h
    obtain ⟨o1, o2⟩ := Mailer.Send_out m email world st hs hf
    refine ⟨?_, { header := [(ascii "Content-Type", ascii "text/plain")],
                  body := email.Body.bytes },
      email.Attachments.map (fun a =>
        { header := a.hdr, body := base64.Encode a.Content.bytes }), ?_⟩
    · rw [o2]
      exact Mailer.headerBlock_wellFormed _ email world h1 h2 h3
    · simp only [Option.map_some', o1]
      rfl

theorem Send_header_block_witness :
    Mailer.HeaderBlockWellFormed
      (Mailer.headerBlockOf Example.mailer Example.email Example.world)
      (ascii "robot@example.com") Example.email
      (multipart.randomBoundary Example.world.rand) ∧
    ∃ (p : multipart.Part) (ps : List multipart.Part),
      (Example.mailer.Send Example.email Example.world).stream.map Stream.out
        = some (Mailer.headerBlockOf Example.mailer Example.email Example.world
            ++ multipart.render (multipart.randomBoundary Example.world.rand) (p :: ps)) :=
  Send_header_block Example.mailer Example.email Example.world (by decide) (by decide)
    (by decide) (by decide)

/-- C8, as stated, fails. With the subject "hi", a line feed, "Bcc: c@d.com", on a relay
that accepts every step and a stream on which no write fails, the header block
read line by line is not six header lines followed by one blank line: it has a
seventh line. -/
theorem Send_header_block_counterexample :
    (Example.mailer.Send Example.emailTwoLineSubject Example.world).stream.map Stream.failed
        = some false ∧
    ¬ Mailer.HeaderBlockWellFormed
      (Mailer.headerBlockOf Example.mailer Example.emailTwoLineSubject Example.world)
      (Example.mailer.sender Example.emailTwoLineSubject) Example.emailTwoLineSubject
      (multipart.randomBoundary Example.world.rand) := by
  decide

/-! ## The declared sender -/

theorem senders_append (a b : List Call) : senders (a ++ b) = senders a ++ senders b := by
  induction a with
  | nil => rfl
  | cons c a ih => cases c <;> simp [senders, ih]

theorem ReaderAttachment.Attach_senders (attachment : ReaderAttachment) (s : State) :
    senders (attachment.Attach s).1.trace = senders s.trace := by
  unfold ReaderAttachment.Attach
  rcases s.mw.CreatePart attachment.hdr with ⟨mw, _ | err⟩
  · simp only
    split
    · simp [senders_append, senders]
    · rfl
  · rfl

theorem Mailer.attachAll_senders (attachments : List ReaderAttachment) (s : State) :
    senders (Mailer.attachAll attachments s).1.trace = senders s.trace := by
  induction attachments generalizing s with
  | nil => rfl
  | cons a rest ih =>
    unfold Mailer.attachAll
    have ha := ReaderAttachment.Attach_senders a s
    rcases hatt : a.Attach s with ⟨s1, _ | err⟩
    · rw [hatt] at ha
      simp only at ha ⊢
      rw [ih s1, ha]
    · rw [hatt] at ha
      exact ha

theorem Mailer.compose_senders (sender : Bytes) (email : Email) (world : World)
    (trace : List Call) (writer : Stream) :
    senders (Mailer.compose sender email world trace writer).1.trace = senders trace := by
  unfold Mailer.compose
  simp only
  split
  · rfl
  · rename_i mw0 hcp
    have hall := Mailer.attachAll_senders email.Attachments
      { trace := trace, mw := (io.Copy multipart.Writer.partWrite mw0 email.Body).1 }
    split
    · rename_i s err heq
      rw [heq] at hall
      exact hall
    · rename_i s heq
      rw [heq] at hall
      exact hall

theorem Mailer.Send_declares (m : Mailer) (email : Email) (world : World)
    (hd : (m.SMTP.dial world).2 = none) :
    senders (m.Send email world).trace = [m.sender email] := by
  have ht := dial_trace_ok m.SMTP world hd
  unfold Mailer.Send
  rcases hdial : m.SMTP.dial world with ⟨t, er⟩
  rw [hdial] at hd ht
  simp only at hd ht
  subst hd
  subst ht
  simp only
  cases world.mail with
  | some err => simp [senders]
  | none =>
    cases world.rcpt with
    | some err => simp [senders]
    | none =>
      cases world.data with
      | some err => simp [senders]
      | none =>
        simp only [senders_append, Mailer.compose_senders]
        simp [senders]

/-- C9. Whenever dial succeeds, exactly one sender is declared to the relay: email.From
when it is not empty, the From of the mailer when it is; and when the data
stream is opened and no write fails, what the run has written to the stream is
the header lines of the keys that come before From in the iteration order, the
line "From: " followed by that same sender, the header lines of the keys that
come after, the blank line and the multipart body; From is none of the other
keys, and the header block of the run is that same block. -/
theorem Send_sender (m : Mailer) (email : Email) (world : World)
    (hd : (m.SMTP.dial world).2 = none) :
    ∃ sender : Bytes, senders (m.Send email world).trace = [sender] ∧
      (email.From ≠ [] → sender = email.From) ∧
      (email.From = [] → sender = m.From) ∧
      ((m.Send email world).stream.map Stream.failed = some false →
        ∃ before after : List HeaderKey,
          world.order.keys = before ++ HeaderKey.From :: after ∧
          HeaderKey.From ∉ before ∧ HeaderKey.From ∉ after ∧
          Mailer.headerBlockOf m email world =
            (before.map (Mailer.headerLine
              (Mailer.headers sender email (multipart.randomBoundary world.rand)))).flatten
            ++ (ascii "From: " ++ sender ++ [LF])
            ++ (after.map (Mailer.headerLine
              (Mailer.headers sender email (multipart.randomBoundary world.rand)))).flatten
            ++ [LF] ∧
          ∃ (p : multipart.Part) (ps : List multipart.Part),
            (m.Send email world).stream.map Stream.out = some (
              (before.map (Mailer.headerLine
                (Mailer.headers sender email (multipart.randomBoundary world.rand)))).flatten
              ++ (ascii "From: " ++ sender ++ [LF])
              ++ (after.map (Mailer.headerLine
                (Mailer.headers sender email (multipart.randomBoundary world.rand)))).flatten
              ++ [LF]
              ++ multipart.render (multipart.randomBoundary world.rand) (p :: ps))) := by
  refine ⟨m.sender email, Mailer.Send_declares m email world hd, ?_, ?_, ?_⟩
  · intro hne
    unfold Mailer.sender
    cases hf : email.From with
    | nil => exact absurd hf hne
    | cons a l => simp
  · intro he
    simp [Mailer.sender, he]
  · intro h
    cases hs : (m.Send email world).stream with
    | none => simp [hs] at h
    | some st =>
      have hf : st.failed = false := by simpa [hs] using h
      obtain ⟨o1, o2⟩ := Mailer.Send_out m email world st hs hf
      have hmem : HeaderKey.From ∈ world.order.keys :=
        world.order.perm.symm.subset (by simp [HeaderKey.all])
      obtain ⟨before, after, hk⟩ := List.append_of_mem hmem
      have hnd : world.order.keys.Nodup := world.order.perm.nodup_iff.2 (by decide)
      rw [hk, List.nodup_middle, List.nodup_cons, List.mem_append, not_or] at hnd
      have e1 : ascii "From" ++ ascii ": " = ascii "From: " := by decide
      have hblock : Mailer.headerBlockOf m email world =
          (before.map (Mailer.headerLine (Mailer.headers (m.sender email) email
            (multipart.randomBoundary world.rand)))).flatten
          ++ (ascii "From: " ++ m.sender email ++ [LF])
          ++ (after.map (Mailer.headerLine (Mailer.headers (m.sender email) email
            (multipart.randomBoundary world.rand)))).flatten
          ++ [LF] := by
        rw [o2, Mailer.headerBlock, hk]
        simp only [List.map_append, List.map_cons, List.flatten_append, List.flatten_cons,
          Mailer.headerLine, Mailer.headers, HeaderKey.name, List.append_assoc]
        rw [← e1]
        simp only [List.append_assoc]
      refine ⟨before, after, hk, hnd.1.1, hnd.1.2, hblock,
        { header := [(ascii "Content-Type", ascii "text/plain")], body := email.Body.bytes },
        email.Attachments.map (fun a =>
          { header := a.hdr, body := base64.Encode a.Content.bytes }), ?_⟩
      simp only [Option.map_some', o1, hblock]
      rfl

theorem Send_sender_witness :
    (Example.relayMailer.SMTP.dial Example.world).2 = none ∧
    (Example.relayMailer.Send Example.email Example.world).stream.map Stream.failed
      = some false ∧
    ∃ sender : Bytes,
      senders (Example.relayMailer.Send Example.email Example.world).trace = [sender] ∧
      (Example.email.From ≠ [] → sender = Example.email.From) ∧
      (Example.email.From = [] → sender = ascii "robot@example.com") ∧
      ((Example.relayMailer.Send Example.email Example.world).stream.map Stream.failed
          = some false →
        ∃ before after : List HeaderKey,
          Example.world.order.keys = before ++ HeaderKey.From :: after ∧
          HeaderKey.From ∉ before ∧ HeaderKey.From ∉ after ∧
          Mailer.headerBlockOf Example.relayMailer Example.email Example.world =
            (before.map (Mailer.headerLine (Mailer.headers sender Example.email
              (multipart.randomBoundary Example.world.rand)))).flatten
            ++ (ascii "From: " ++ sender ++ [LF])
            ++ (after.map (Mailer.headerLine (Mailer.headers sender Example.email
              (multipart.randomBoundary Example.world.rand)))).flatten
            ++ [LF] ∧
          ∃ (p : multipart.Part) (ps : List multipart.Part),
            (Example.relayMailer.Send Example.email Example.world).stream.map Stream.out
              = some (
                (before.map (Mailer.headerLine (Mailer.headers sender Example.email
                  (multipart.randomBoundary Example.world.rand)))).flatten
                ++ (ascii "From: " ++ sender ++ [LF])
                ++ (after.map (Mailer.headerLine (Mailer.headers sender Example.email
                  (multipart.randomBoundary Example.world.rand)))).flatten
                ++ [LF]
                ++ multipart.render (multipart.randomBoundary Example.world.rand)
                    (p :: ps))) :=
  ⟨by decide, by decide,
    Send_sender Example.relayMailer Example.email Example.world (by decide)⟩

end Moistrobot

